import Mathlib

/-!
Shallow embedding of the Blogly CRUD application (`unit27.2.py`):
SQLAlchemy models `User`, `Post`, `PostTag`, `Tag` and the Flask route
handlers of `part-three/app.py`.  The relational store is modelled as
lists of rows; each route handler is a function from the store (plus the
parsed form data) to a `Response` carrying the new store on success.
`Query.get_or_404` is modelled by an `Option`-returning lookup followed by
a `notFound` response; `db.session.commit` either persists the whole
pending state or (on a constraint violation, e.g. the `unique=True`
constraint on `Tag.name`) raises, leaving the store unchanged, surfaced
as `serverError`.
-/

namespace Blogly

/-- The documented default image URL constant of `models.py`. -/
def DEFAULT_IMAGE_URL : String :=
  "https://www.freeiconspng.com/uploads/icon-user-blue-symbol-people-person-generic--public-domain--21.png"

/-- Row of table `users`: id, first_name, last_name, image_url. -/
structure User where
  id : Nat
  first_name : String
  last_name : String
  image_url : String
  deriving Repr, DecidableEq

/-- Row of table `posts`: id, title, content, created_at, user_id.
`created_at` is a timestamp (modelled as a natural number). -/
structure Post where
  id : Nat
  title : String
  content : String
  created_at : Nat
  user_id : Nat
  deriving Repr, DecidableEq

/-- Row of table `posts_tags`: the join record pairing one Post and one Tag. -/
structure PostTag where
  post_id : Nat
  tag_id : Nat
  deriving Repr, DecidableEq

/-- Row of table `tags`: id and (unique) name. -/
structure Tag where
  id : Nat
  name : String
  deriving Repr, DecidableEq

/-- The relational store: the four tables. -/
structure DB where
  users : List User
  posts : List Post
  tags : List Tag
  posts_tags : List PostTag
  deriving Repr, DecidableEq

/-- The store right after `db.create_all()` on a fresh database. -/
def initialDB : DB := ⟨[], [], [], []⟩

/-- Outcome of a route handler: a successful response carrying the
committed store (a rendered page or a redirect), an HTTP 404 from
`get_or_404`, or an unhandled exception (e.g. `IntegrityError` from a
constraint violation) surfaced as a generic server error. -/
inductive Response (α : Type) where
  | ok : α → Response α
  | notFound : Response α
  | serverError : Response α
  deriving Repr, DecidableEq

/-- HTTP status code of a response (success renders/redirects with a
2xx/3xx status; we use 200 for every success). -/
def httpStatus {α : Type} : Response α → Nat
  | .ok _ => 200
  | .notFound => 404
  | .serverError => 500

/-- The store after a handler ran: the committed store on success,
the unchanged store when the request failed (404 or rolled-back error). -/
def runStore (s : DB) : Response DB → DB
  | .ok s' => s'
  | .notFound => s
  | .serverError => s

/-- `User.query.get(uid)`. -/
def findUser (s : DB) (uid : Nat) : Option User :=
  s.users.find? (fun u => u.id == uid)

/-- `Post.query.get(pid)`. -/
def findPost (s : DB) (pid : Nat) : Option Post :=
  s.posts.find? (fun p => p.id == pid)

/-- `Tag.query.get(tid)`. -/
def findTag (s : DB) (tid : Nat) : Option Tag :=
  s.tags.find? (fun t => t.id == tid)

/-- Fresh primary key for an insert into `users` (serial column). -/
def nextUserId (s : DB) : Nat := (s.users.map (fun u => u.id)).foldr max 0 + 1

/-- Fresh primary key for an insert into `posts` (serial column). -/
def nextPostId (s : DB) : Nat := (s.posts.map (fun p => p.id)).foldr max 0 + 1

/-- Fresh primary key for an insert into `tags` (serial column). -/
def nextTagId (s : DB) : Nat := (s.tags.map (fun t => t.id)).foldr max 0 + 1

/-- Parsed form body of the user create/edit forms:
`first_name`, `last_name`, `image_url` fields. -/
structure UserForm where
  first_name : String
  last_name : String
  image_url : String
  deriving Repr, DecidableEq

/-- Parsed form body of the post create/edit forms: `title`, `content`
and the checked tag ids (`request.form.getlist("tags")`, as ints). -/
structure PostForm where
  title : String
  content : String
  tags : List Nat
  deriving Repr, DecidableEq

/-- Parsed form body of the tag create/edit forms: `name` and the
checked post ids (`request.form.getlist("posts")`, as ints). -/
structure TagForm where
  name : String
  posts : List Nat
  deriving Repr, DecidableEq

/-- GET `/`: the five most recent posts,
`Post.query.order_by(Post.created_at.desc()).limit(5).all()`. -/
def root (s : DB) : List Post :=
  (s.posts.mergeSort (fun a b => b.created_at ≤ a.created_at)).take 5

/-- GET `/users/<user_id>` (`users_show`). -/
def users_show (s : DB) (uid : Nat) : Response Unit :=
  match findUser s uid with
  | none => .notFound
  | some _ => .ok ()

/-- GET `/users/<user_id>/edit` (`users_edit`, the edit form). -/
def users_edit (s : DB) (uid : Nat) : Response Unit :=
  match findUser s uid with
  | none => .notFound
  | some _ => .ok ()

/-- POST `/users/new` (`users_new`): inserts a user; an empty
`image_url` form value becomes `None` (`request.form['image_url'] or
None`), so the column default `DEFAULT_IMAGE_URL` applies. -/
def users_new (s : DB) (f : UserForm) : Response DB :=
  let new_user : User :=
    ⟨nextUserId s, f.first_name, f.last_name,
      if f.image_url = "" then DEFAULT_IMAGE_URL else f.image_url⟩
  .ok { s with users := s.users ++ [new_user] }

/-- POST `/users/<user_id>/edit` (`users_update`): overwrites
`first_name`, `last_name` and `image_url` with the form values. -/
def users_update (s : DB) (uid : Nat) (f : UserForm) : Response DB :=
  match findUser s uid with
  | none => .notFound
  | some _ =>
      .ok { s with users := s.users.map (fun u =>
              if u.id = uid then
                { u with first_name := f.first_name,
                         last_name := f.last_name,
                         image_url := f.image_url }
              else u) }

/-- POST `/users/<user_id>/delete` (`users_destroy`): deletes the user;
the `cascade="all, delete-orphan"` relationship deletes the user's
posts, and the secondary-table rows of those posts are deleted with
them; tags are untouched. -/
def users_destroy (s : DB) (uid : Nat) : Response DB :=
  match findUser s uid with
  | none => .notFound
  | some _ =>
      let deleted := (s.posts.filter (fun p => p.user_id == uid)).map (fun p => p.id)
      .ok { users := s.users.filter (fun u => u.id != uid),
            posts := s.posts.filter (fun p => p.user_id != uid),
            tags := s.tags,
            posts_tags := s.posts_tags.filter (fun pt => !(deleted.contains pt.post_id)) }

/-- GET `/users/<user_id>/posts/new` (`posts_new_form`). -/
def posts_new_form (s : DB) (uid : Nat) : Response Unit :=
  match findUser s uid with
  | none => .notFound
  | some _ => .ok ()

/-- POST `/users/<user_id>/posts/new` (`posts_new`): inserts a post for
the user with the tags whose ids were submitted and exist
(`Tag.query.filter(Tag.id.in_(tag_ids)).all()`); `created_at` defaults
to the current time, passed here as `now`. -/
def posts_new (s : DB) (uid : Nat) (f : PostForm) (now : Nat) : Response DB :=
  match findUser s uid with
  | none => .notFound
  | some _ =>
      let pid := nextPostId s
      let matched := s.tags.filter (fun t => f.tags.contains t.id)
      .ok { s with posts := s.posts ++ [⟨pid, f.title, f.content, now, uid⟩],
                   posts_tags := s.posts_tags ++ matched.map (fun t => ⟨pid, t.id⟩) }

/-- GET `/posts/<post_id>` (`posts_show`). -/
def posts_show (s : DB) (pid : Nat) : Response Unit :=
  match findPost s pid with
  | none => .notFound
  | some _ => .ok ()

/-- GET `/posts/<post_id>/edit` (`posts_edit`, the edit form). -/
def posts_edit (s : DB) (pid : Nat) : Response Unit :=
  match findPost s pid with
  | none => .notFound
  | some _ => .ok ()

/-- POST `/posts/<post_id>/edit` (`posts_update`): overwrites `title`
and `content` with the form values and reassigns `post.tags` to the
tags whose ids were submitted and exist
(`Tag.query.filter(Tag.id.in_(tag_ids)).all()`), replacing the join
rows of this post. -/
def posts_update (s : DB) (pid : Nat) (f : PostForm) : Response DB :=
  match findPost s pid with
  | none => .notFound
  | some _ =>
      let matched := s.tags.filter (fun t => f.tags.contains t.id)
      .ok { s with posts := s.posts.map (fun p =>
                     if p.id = pid then
                       { p with title := f.title, content := f.content }
                     else p),
                   posts_tags := s.posts_tags.filter (fun pt => pt.post_id != pid)
                     ++ matched.map (fun t => ⟨pid, t.id⟩) }

/-- `db.session.commit()` for `posts_update`: the handler's two pending
mutations (field updates and association replacement) are committed
atomically; if the commit fails the transaction rolls back and the
store is unchanged.  `commitOk` says whether the commit succeeds. -/
def posts_update_commit (commitOk : Bool) (s : DB) (pid : Nat) (f : PostForm) :
    Response DB :=
  match posts_update s pid f with
  | .ok s' => .ok (if commitOk then s' else s)
  | .notFound => .notFound
  | .serverError => .serverError

/-- POST `/posts/<post_id>/delete` (`posts_destroy`). -/
def posts_destroy (s : DB) (pid : Nat) : Response DB :=
  match findPost s pid with
  | none => .notFound
  | some _ =>
      .ok { s with posts := s.posts.filter (fun p => p.id != pid),
                   posts_tags := s.posts_tags.filter (fun pt => pt.post_id != pid) }

/-- POST `/tags/new` (`tags_new`): inserts a tag named by the form with
the posts whose ids were submitted and exist; the `unique=True`
constraint on `Tag.name` makes the commit raise `IntegrityError`
(unhandled, a generic server error) when the name is already in use. -/
def tags_new (s : DB) (f : TagForm) : Response DB :=
  if s.tags.any (fun t => t.name == f.name) then .serverError
  else
    let tid := nextTagId s
    let matched := s.posts.filter (fun p => f.posts.contains p.id)
    .ok { s with tags := s.tags ++ [⟨tid, f.name⟩],
                 posts_tags := s.posts_tags ++ matched.map (fun p => ⟨p.id, tid⟩) }

/-- GET `/tags/<tag_id>` (`tags_show`). -/
def tags_show (s : DB) (tid : Nat) : Response Unit :=
  match findTag s tid with
  | none => .notFound
  | some _ => .ok ()

/-- GET `/tags/<tag_id>/edit` (`tags_edit_form`). -/
def tags_edit_form (s : DB) (tid : Nat) : Response Unit :=
  match findTag s tid with
  | none => .notFound
  | some _ => .ok ()

/-- POST `/tags/<tag_id>/edit` (`tags_edit`): overwrites `name` with the
form value and reassigns `tag.posts` to the posts whose ids were
submitted and exist; the `unique=True` constraint on `Tag.name` makes
the commit raise when the new name is used by a different tag. -/
def tags_edit (s : DB) (tid : Nat) (f : TagForm) : Response DB :=
  match findTag s tid with
  | none => .notFound
  | some _ =>
      if s.tags.any (fun t => t.id != tid && t.name == f.name) then .serverError
      else
        let matched := s.posts.filter (fun p => f.posts.contains p.id)
        .ok { s with tags := s.tags.map (fun t =>
                       if t.id = tid then { t with name := f.name } else t),
                     posts_tags := s.posts_tags.filter (fun pt => pt.tag_id != tid)
                       ++ matched.map (fun p => ⟨p.id, tid⟩) }

/-- POST `/tags/<tag_id>/delete` (`tags_destroy`): deletes the tag and
(secondary relationship) its join rows; posts are untouched (the
`cascade="all,delete"` option is commented out in the source). -/
def tags_destroy (s : DB) (tid : Nat) : Response DB :=
  match findTag s tid with
  | none => .notFound
  | some _ =>
      .ok { s with tags := s.tags.filter (fun t => t.id != tid),
                   posts_tags := s.posts_tags.filter (fun pt => pt.tag_id != tid) }

/-- The ids of the tags currently associated with post `pid`
(the join rows of `posts_tags` for that post). -/
def postTagIds (s : DB) (pid : Nat) : List Nat :=
  (s.posts_tags.filter (fun pt => pt.post_id == pid)).map (fun pt => pt.tag_id)

/-- One committed mutating request: the step relation of the store. -/
inductive Step : DB → DB → Prop
  | users_new : ∀ s f s', users_new s f = .ok s' → Step s s'
  | users_update : ∀ s uid f s', users_update s uid f = .ok s' → Step s s'
  | users_destroy : ∀ s uid s', users_destroy s uid = .ok s' → Step s s'
  | posts_new : ∀ s uid f now s', posts_new s uid f now = .ok s' → Step s s'
  | posts_update : ∀ s pid f s', posts_update s pid f = .ok s' → Step s s'
  | posts_destroy : ∀ s pid s', posts_destroy s pid = .ok s' → Step s s'
  | tags_new : ∀ s f s', tags_new s f = .ok s' → Step s s'
  | tags_edit : ∀ s tid f s', tags_edit s tid f = .ok s' → Step s s'
  | tags_destroy : ∀ s tid s', tags_destroy s tid = .ok s' → Step s s'

/-- A store state reachable from the fresh database by handler requests. -/
def Reachable (s : DB) : Prop := Relation.ReflTransGen Step initialDB s

/-- The store committed by a successful `posts_update`, spelled out. -/
def postsUpdated (s : DB) (pid : Nat) (f : PostForm) : DB :=
  { s with
    posts := s.posts.map (fun q =>
      if q.id = pid then { q with title := f.title, content := f.content } else q),
    posts_tags := s.posts_tags.filter (fun pt => pt.post_id != pid)
      ++ (s.tags.filter (fun t => f.tags.contains t.id)).map (fun t => ⟨pid, t.id⟩) }

theorem posts_update_ok (s : DB) (pid : Nat) (f : PostForm) (p : Post)
    (h : findPost s pid = some p) :
    posts_update s pid f = .ok (postsUpdated s pid f) := by
  simp [posts_update, postsUpdated, h]

theorem postTagIds_postsUpdated (s : DB) (pid : Nat) (f : PostForm) :
    postTagIds (postsUpdated s pid f) pid =
      (s.tags.filter (fun t => f.tags.contains t.id)).map (fun t => t.id) := by
  simp only [postTagIds, postsUpdated, List.filter_append, List.filter_filter,
    List.filter_map, Function.comp_def]
  simp [bne, Function.comp_def]

theorem mem_tagIds_filter (tags : List Tag) (ids : List Nat) (tid : Nat) :
    tid ∈ (tags.filter (fun t => ids.contains t.id)).map (fun t => t.id) ↔
      tid ∈ ids ∧ ∃ t ∈ tags, t.id = tid := by
  simp only [List.mem_map, List.mem_filter]
  constructor
  · rintro ⟨t, ⟨ht, hid⟩, rfl⟩
    exact ⟨by simpa using hid, t, ht, rfl⟩
  · rintro ⟨hid, t, ht, rfl⟩
    exact ⟨t, ⟨ht, by simpa using hid⟩, rfl⟩

/-- Claim C1: for every existing Post and every submitted list of tag ids,
`posts_update` replaces the Post's entire tag association set with exactly
the Tags whose ids appear in the submitted list and exist in the store;
unmatched ids are silently dropped, and an empty submitted list clears all
of the Post's tag associations, regardless of prior associations. -/
theorem posts_update_replaces_tag_set (s : DB) (pid : Nat) (f : PostForm)
    (p : Post) (h : findPost s pid = some p) :
    ∃ s', posts_update s pid f = .ok s' ∧
      (∀ tid, tid ∈ postTagIds s' pid ↔ tid ∈ f.tags ∧ ∃ t ∈ s.tags, t.id = tid) ∧
      (f.tags = [] → postTagIds s' pid = []) := by
  refine ⟨postsUpdated s pid f, posts_update_ok s pid f p h, ?_, ?_⟩
  · intro tid
    rw [postTagIds_postsUpdated]
    exact mem_tagIds_filter s.tags f.tags tid
  · intro hnil
    rw [postTagIds_postsUpdated, hnil]
    simp

/-- A concrete store for witnesses: one user, two posts, three tags,
post 1 tagged with tag 1. -/
def dbW : DB :=
  ⟨[⟨1, "Jane", "Doe", "img"⟩],
   [⟨1, "t", "c", 10, 1⟩, ⟨2, "t2", "c2", 20, 1⟩],
   [⟨1, "fun"⟩, ⟨2, "cool"⟩, ⟨5, "hot"⟩],
   [⟨1, 1⟩, ⟨2, 2⟩]⟩

theorem posts_update_replaces_tag_set_witness :
    ∃ s', posts_update dbW 1 ⟨"T", "C", [2, 5, 99]⟩ = .ok s' ∧
      (∀ tid, tid ∈ postTagIds s' 1 ↔
        tid ∈ [2, 5, 99] ∧ ∃ t ∈ dbW.tags, t.id = tid) ∧
      (([2, 5, 99] : List Nat) = [] → postTagIds s' 1 = []) :=
  posts_update_replaces_tag_set dbW 1 ⟨"T", "C", [2, 5, 99]⟩ ⟨1, "t", "c", 10, 1⟩ rfl

theorem users_destroy_ok (s : DB) (uid : Nat) (u : User)
    (h : findUser s uid = some u) :
    users_destroy s uid = .ok
      { users := s.users.filter (fun v => v.id != uid),
        posts := s.posts.filter (fun p => p.user_id != uid),
        tags := s.tags,
        posts_tags := s.posts_tags.filter (fun pt =>
          !(((s.posts.filter (fun p => p.user_id == uid)).map
              (fun p => p.id)).contains pt.post_id)) } := by
  simp [users_destroy, h]

/-- Claim C2: `users_destroy` removes the User and every Post it owns;
every Tag remains in the store; only the join rows whose post was among
the deleted Posts are removed. -/
theorem users_destroy_cascades_posts_keeps_tags (s : DB) (uid : Nat) (u : User)
    (h : findUser s uid = some u) :
    ∃ s', users_destroy s uid = .ok s' ∧
      (∀ v, v ∈ s'.users ↔ v ∈ s.users ∧ v.id ≠ uid) ∧
      (∀ p, p ∈ s'.posts ↔ p ∈ s.posts ∧ p.user_id ≠ uid) ∧
      s'.tags = s.tags ∧
      (∀ pt, pt ∈ s'.posts_tags ↔ pt ∈ s.posts_tags ∧
        ¬ ∃ p ∈ s.posts, p.user_id = uid ∧ p.id = pt.post_id) := by
  refine ⟨_, users_destroy_ok s uid u h, ?_, ?_, rfl, ?_⟩
  · intro v; simp [List.mem_filter]
  · intro p; simp [List.mem_filter]
  · intro pt
    simp [List.mem_filter, List.mem_map]

theorem users_destroy_cascades_posts_keeps_tags_witness :
    ∃ s', users_destroy dbW 1 = .ok s' ∧
      (∀ v, v ∈ s'.users ↔ v ∈ dbW.users ∧ v.id ≠ 1) ∧
      (∀ p, p ∈ s'.posts ↔ p ∈ dbW.posts ∧ p.user_id ≠ 1) ∧
      s'.tags = dbW.tags ∧
      (∀ pt, pt ∈ s'.posts_tags ↔ pt ∈ dbW.posts_tags ∧
        ¬ ∃ p ∈ dbW.posts, p.user_id = 1 ∧ p.id = pt.post_id) :=
  users_destroy_cascades_posts_keeps_tags dbW 1 ⟨1, "Jane", "Doe", "img"⟩ rfl

theorem findPost_postsUpdated (s : DB) (pid : Nat) (f : PostForm) (p : Post)
    (h : findPost s pid = some p) :
    findPost (postsUpdated s pid f) pid =
      some { p with title := f.title, content := f.content } := by
  have h0 : s.posts.find? (fun q => q.id == pid) = some p := h
  have hid := @List.find?_some Post (fun q : Post => q.id == pid) p s.posts h0
  have hid' : p.id = pid := by simpa using hid
  unfold findPost postsUpdated
  simp only [List.find?_map]
  have hcomp : ((fun q : Post => q.id == pid) ∘ (fun q : Post =>
      if q.id = pid then { q with title := f.title, content := f.content } else q))
      = fun q : Post => q.id == pid := by
    funext q
    by_cases hq : q.id = pid <;> simp [hq]
  rw [hcomp]
  rw [show s.posts.find? (fun q => q.id == pid) = some p from h]
  simp [hid']

/-- Claim C3: `posts_update` applies the Post's field updates (title,
content) and the replacement of its tag association set in one commit,
all-or-nothing: on a successful commit both are persisted, on a failed
commit the store is unchanged, and no committed state persists only one
of the two. -/
theorem posts_update_atomic (commitOk : Bool) (s : DB) (pid : Nat)
    (f : PostForm) (p : Post) (h : findPost s pid = some p) :
    (commitOk = false → posts_update_commit commitOk s pid f = .ok s) ∧
    (commitOk = true → ∃ s', posts_update_commit commitOk s pid f = .ok s' ∧
      findPost s' pid = some { p with title := f.title, content := f.content } ∧
      (∀ tid, tid ∈ postTagIds s' pid ↔ tid ∈ f.tags ∧ ∃ t ∈ s.tags, t.id = tid)) ∧
    (∀ s', posts_update_commit commitOk s pid f = .ok s' →
      s' = s ∨ s' = postsUpdated s pid f) := by
  have hok := posts_update_ok s pid f p h
  refine ⟨?_, ?_, ?_⟩
  · intro hc
    simp [posts_update_commit, hok, hc]
  · intro hc
    refine ⟨postsUpdated s pid f, by simp [posts_update_commit, hok, hc], ?_, ?_⟩
    · exact findPost_postsUpdated s pid f p h
    · intro tid
      rw [postTagIds_postsUpdated]
      exact mem_tagIds_filter s.tags f.tags tid
  · intro s' hs'
    rw [posts_update_commit, hok] at hs'
    cases commitOk with
    | false => simp at hs'; exact Or.inl hs'.symm
    | true => simp at hs'; exact Or.inr hs'.symm

theorem posts_update_atomic_witness :
    ((false = false → posts_update_commit false dbW 1 ⟨"T", "C", [2]⟩ = .ok dbW) ∧
      (false = true → ∃ s', posts_update_commit false dbW 1 ⟨"T", "C", [2]⟩ = .ok s' ∧
        findPost s' 1 = some ⟨1, "T", "C", 10, 1⟩ ∧
        (∀ tid, tid ∈ postTagIds s' 1 ↔ tid ∈ [2] ∧ ∃ t ∈ dbW.tags, t.id = tid)) ∧
      (∀ s', posts_update_commit false dbW 1 ⟨"T", "C", [2]⟩ = .ok s' →
        s' = dbW ∨ s' = postsUpdated dbW 1 ⟨"T", "C", [2]⟩)) ∧
    ((true = false → posts_update_commit true dbW 1 ⟨"T", "C", [2]⟩ = .ok dbW) ∧
      (true = true → ∃ s', posts_update_commit true dbW 1 ⟨"T", "C", [2]⟩ = .ok s' ∧
        findPost s' 1 = some ⟨1, "T", "C", 10, 1⟩ ∧
        (∀ tid, tid ∈ postTagIds s' 1 ↔ tid ∈ [2] ∧ ∃ t ∈ dbW.tags, t.id = tid)) ∧
      (∀ s', posts_update_commit true dbW 1 ⟨"T", "C", [2]⟩ = .ok s' →
        s' = dbW ∨ s' = postsUpdated dbW 1 ⟨"T", "C", [2]⟩)) :=
  ⟨posts_update_atomic false dbW 1 ⟨"T", "C", [2]⟩ ⟨1, "t", "c", 10, 1⟩ rfl,
   posts_update_atomic true dbW 1 ⟨"T", "C", [2]⟩ ⟨1, "t", "c", 10, 1⟩ rfl⟩

/-- Claim C4: every id-based lookup route (user, post, tag
show/edit/delete/new-post) answers a request for a nonexistent id with
HTTP 404, and with no other error kind. -/
theorem missing_entity_returns_404 (s : DB) (uid pid tid : Nat)
    (hu : findUser s uid = none) (hp : findPost s pid = none)
    (ht : findTag s tid = none) :
    httpStatus (users_show s uid) = 404 ∧
    httpStatus (users_edit s uid) = 404 ∧
    (∀ f, httpStatus (users_update s uid f) = 404) ∧
    httpStatus (users_destroy s uid) = 404 ∧
    httpStatus (posts_new_form s uid) = 404 ∧
    (∀ f now, httpStatus (posts_new s uid f now) = 404) ∧
    httpStatus (posts_show s pid) = 404 ∧
    httpStatus (posts_edit s pid) = 404 ∧
    (∀ f, httpStatus (posts_update s pid f) = 404) ∧
    httpStatus (posts_destroy s pid) = 404 ∧
    httpStatus (tags_show s tid) = 404 ∧
    httpStatus (tags_edit_form s tid) = 404 ∧
    (∀ f, httpStatus (tags_edit s tid f) = 404) ∧
    httpStatus (tags_destroy s tid) = 404 := by
  simp [users_show, users_edit, users_update, users_destroy, posts_new_form,
    posts_new, posts_show, posts_edit, posts_update, posts_destroy, tags_show,
    tags_edit_form, tags_edit, tags_destroy, httpStatus, hu, hp, ht]

theorem missing_entity_returns_404_witness :
    httpStatus (users_show dbW 9999) = 404 ∧
    httpStatus (users_edit dbW 9999) = 404 ∧
    (∀ f, httpStatus (users_update dbW 9999 f) = 404) ∧
    httpStatus (users_destroy dbW 9999) = 404 ∧
    httpStatus (posts_new_form dbW 9999) = 404 ∧
    (∀ f now, httpStatus (posts_new dbW 9999 f now) = 404) ∧
    httpStatus (posts_show dbW 9999) = 404 ∧
    httpStatus (posts_edit dbW 9999) = 404 ∧
    (∀ f, httpStatus (posts_update dbW 9999 f) = 404) ∧
    httpStatus (posts_destroy dbW 9999) = 404 ∧
    httpStatus (tags_show dbW 9999) = 404 ∧
    httpStatus (tags_edit_form dbW 9999) = 404 ∧
    (∀ f, httpStatus (tags_edit dbW 9999 f) = 404) ∧
    httpStatus (tags_destroy dbW 9999) = 404 :=
  missing_entity_returns_404 dbW 9999 9999 9999 rfl rfl rfl

theorem le_foldr_max (l : List Nat) (x : Nat) (hx : x ∈ l) :
    x ≤ l.foldr max 0 := by
  induction l with
  | nil => cases hx
  | cons a l ih =>
    rcases List.mem_cons.mp hx with rfl | h
    · exact Nat.le_max_left _ _
    · exact le_trans (ih h) (Nat.le_max_right _ _)

theorem nextTagId_not_mem (s : DB) : nextTagId s ∉ s.tags.map (fun t => t.id) := by
  intro hmem
  have h1 := le_foldr_max (s.tags.map (fun t => t.id)) (nextTagId s) hmem
  rw [nextTagId] at h1
  omega

theorem nodup_rename_names (l : List Tag) (tid : Nat) (nm : String)
    (hids : (l.map (fun t => t.id)).Nodup)
    (hnames : (l.map (fun t => t.name)).Nodup)
    (hguard : ∀ t ∈ l, t.id ≠ tid → t.name ≠ nm) :
    ((l.map (fun t => if t.id = tid then { t with name := nm } else t)).map
      (fun t => t.name)).Nodup := by
  induction l with
  | nil => simp
  | cons t l ih =>
    simp only [List.map_cons, List.nodup_cons] at hids hnames ⊢
    by_cases ht : t.id = tid
    · have hothers : ∀ u ∈ l, u.id ≠ tid := by
        intro u hu hco
        exact hids.1 (List.mem_map.mpr ⟨u, hu, hco.trans ht.symm⟩)
      have hmap : l.map (fun u => if u.id = tid then { u with name := nm } else u) = l := by
        rw [List.map_congr_left (fun u hu => if_neg (hothers u hu))]
        exact List.map_id l
      rw [if_pos ht, hmap]
      refine ⟨?_, hnames.2⟩
      intro hcon
      rcases List.mem_map.mp hcon with ⟨u, hu, hun⟩
      exact hguard u (List.mem_cons_of_mem t hu) (hothers u hu) hun
    · rw [if_neg ht]
      refine ⟨?_, ih hids.2 hnames.2 (fun u hu => hguard u (List.mem_cons_of_mem t hu))⟩
      intro hcon
      rcases List.mem_map.mp hcon with ⟨v, hv, hvn⟩
      rcases List.mem_map.mp hv with ⟨u, hu, rfl⟩
      by_cases hu2 : u.id = tid
      · rw [if_pos hu2] at hvn
        exact hguard t (List.mem_cons_self t l) ht hvn.symm
      · rw [if_neg hu2] at hvn
        exact hnames.1 (List.mem_map.mpr ⟨u, hu, hvn⟩)

/-- Tag-table sanity: primary keys and names are pairwise distinct. -/
def TagsOk (s : DB) : Prop :=
  (s.tags.map (fun t => t.id)).Nodup ∧ (s.tags.map (fun t => t.name)).Nodup

theorem users_new_tags_eq (s : DB) (f : UserForm) (s' : DB)
    (h : users_new s f = .ok s') : s'.tags = s.tags := by
  simp only [users_new, Response.ok.injEq] at h
  rw [← h]

theorem users_update_tags_eq (s : DB) (uid : Nat) (f : UserForm) (s' : DB)
    (h : users_update s uid f = .ok s') : s'.tags = s.tags := by
  cases hu : findUser s uid with
  | none => simp [users_update, hu] at h
  | some u =>
    simp only [users_update, hu, Response.ok.injEq] at h
    rw [← h]

theorem users_destroy_tags_eq (s : DB) (uid : Nat) (s' : DB)
    (h : users_destroy s uid = .ok s') : s'.tags = s.tags := by
  cases hu : findUser s uid with
  | none => simp [users_destroy, hu] at h
  | some u =>
    simp only [users_destroy, hu, Response.ok.injEq] at h
    rw [← h]

theorem posts_new_tags_eq (s : DB) (uid : Nat) (f : PostForm) (now : Nat) (s' : DB)
    (h : posts_new s uid f now = .ok s') : s'.tags = s.tags := by
  cases hu : findUser s uid with
  | none => simp [posts_new, hu] at h
  | some u =>
    simp only [posts_new, hu, Response.ok.injEq] at h
    rw [← h]

theorem posts_update_tags_eq (s : DB) (pid : Nat) (f : PostForm) (s' : DB)
    (h : posts_update s pid f = .ok s') : s'.tags = s.tags := by
  cases hp : findPost s pid with
  | none => simp [posts_update, hp] at h
  | some p =>
    simp only [posts_update, hp, Response.ok.injEq] at h
    rw [← h]

theorem posts_destroy_tags_eq (s : DB) (pid : Nat) (s' : DB)
    (h : posts_destroy s pid = .ok s') : s'.tags = s.tags := by
  cases hp : findPost s pid with
  | none => simp [posts_destroy, hp] at h
  | some p =>
    simp only [posts_destroy, hp, Response.ok.injEq] at h
    rw [← h]

theorem tags_new_tags_eq (s : DB) (f : TagForm) (s' : DB)
    (h : tags_new s f = .ok s') :
    s.tags.any (fun t => t.name == f.name) = false ∧
      s'.tags = s.tags ++ [⟨nextTagId s, f.name⟩] := by
  cases hdup : s.tags.any (fun t => t.name == f.name) with
  | true => simp [tags_new, hdup] at h
  | false =>
    simp only [tags_new, hdup, Bool.false_eq_true, if_false, Response.ok.injEq] at h
    exact ⟨rfl, by rw [← h]⟩

theorem tags_edit_tags_eq (s : DB) (tid : Nat) (f : TagForm) (s' : DB)
    (h : tags_edit s tid f = .ok s') :
    s.tags.any (fun t => t.id != tid && t.name == f.name) = false ∧
      s'.tags = s.tags.map (fun t => if t.id = tid then { t with name := f.name } else t) := by
  cases ht : findTag s tid with
  | none => simp [tags_edit, ht] at h
  | some t =>
    cases hdup : s.tags.any (fun t => t.id != tid && t.name == f.name) with
    | true => simp [tags_edit, ht, hdup] at h
    | false =>
      simp only [tags_edit, ht, hdup, Bool.false_eq_true, if_false, Response.ok.injEq] at h
      exact ⟨rfl, by rw [← h]⟩

theorem tags_destroy_tags_eq (s : DB) (tid : Nat) (s' : DB)
    (h : tags_destroy s tid = .ok s') :
    s'.tags = s.tags.filter (fun t => t.id != tid) := by
  cases ht : findTag s tid with
  | none => simp [tags_destroy, ht] at h
  | some t =>
    simp only [tags_destroy, ht, Response.ok.injEq] at h
    rw [← h]

theorem step_tagsOk (s s' : DB) (h : Step s s') (hs : TagsOk s) : TagsOk s' := by
  cases h with
  | users_new f _ h1 =>
    unfold TagsOk at hs ⊢
    rw [users_new_tags_eq s f s' h1]
    exact hs
  | users_update uid f _ h1 =>
    unfold TagsOk at hs ⊢
    rw [users_update_tags_eq s uid f s' h1]
    exact hs
  | users_destroy uid _ h1 =>
    unfold TagsOk at hs ⊢
    rw [users_destroy_tags_eq s uid s' h1]
    exact hs
  | posts_new uid f now _ h1 =>
    unfold TagsOk at hs ⊢
    rw [posts_new_tags_eq s uid f now s' h1]
    exact hs
  | posts_update pid f _ h1 =>
    unfold TagsOk at hs ⊢
    rw [posts_update_tags_eq s pid f s' h1]
    exact hs
  | posts_destroy pid _ h1 =>
    unfold TagsOk at hs ⊢
    rw [posts_destroy_tags_eq s pid s' h1]
    exact hs
  | tags_new f _ h1 =>
    obtain ⟨hdup, htags⟩ := tags_new_tags_eq s f s' h1
    unfold TagsOk at hs ⊢
    rw [htags]
    have hfresh := nextTagId_not_mem s
    have hname : ∀ t ∈ s.tags, t.name ≠ f.name := by
      intro t ht hco
      have : s.tags.any (fun t => t.name == f.name) = true :=
        List.any_eq_true.mpr ⟨t, ht, by simp [hco]⟩
      rw [hdup] at this
      cases this
    constructor
    · simp only [List.map_append, List.map_cons, List.map_nil]
      rw [List.nodup_append]
      refine ⟨hs.1, List.nodup_singleton _, ?_⟩
      intro x hx hx2
      simp at hx2
      rw [hx2] at hx
      exact hfresh hx
    · simp only [List.map_append, List.map_cons, List.map_nil]
      rw [List.nodup_append]
      refine ⟨hs.2, List.nodup_singleton _, ?_⟩
      intro x hx hx2
      simp at hx2
      rcases List.mem_map.mp hx with ⟨t, ht, rfl⟩
      exact hname t ht hx2
  | tags_edit tid f _ h1 =>
    obtain ⟨hdup, htags⟩ := tags_edit_tags_eq s tid f s' h1
    unfold TagsOk at hs ⊢
    rw [htags]
    have hguard : ∀ t ∈ s.tags, t.id ≠ tid → t.name ≠ f.name := by
      intro t ht hne hco
      have : s.tags.any (fun t => t.id != tid && t.name == f.name) = true :=
        List.any_eq_true.mpr ⟨t, ht, by simp [hne, hco]⟩
      rw [hdup] at this
      cases this
    constructor
    · have : (s.tags.map (fun t => if t.id = tid then { t with name := f.name } else t)).map
          (fun t => t.id) = s.tags.map (fun t => t.id) := by
        rw [List.map_map]
        apply List.map_congr_left
        intro t ht
        by_cases h2 : t.id = tid <;> simp [h2]
      rw [this]
      exact hs.1
    · exact nodup_rename_names s.tags tid f.name hs.1 hs.2 hguard
  | tags_destroy tid _ h1 =>
    unfold TagsOk at hs ⊢
    rw [tags_destroy_tags_eq s tid s' h1]
    constructor
    · exact ((List.filter_sublist s.tags).map (fun t => t.id)).nodup hs.1
    · exact ((List.filter_sublist s.tags).map (fun t => t.name)).nodup hs.2

theorem reachable_tagsOk (s : DB) (hr : Reachable s) : TagsOk s := by
  induction hr with
  | refl => exact ⟨List.nodup_nil, List.nodup_nil⟩
  | tail h1 h2 ih => exact step_tagsOk _ _ h2 ih

/-- Claim C5: creating a Tag whose submitted name equals an existing Tag
name fails with the uniqueness violation (an unhandled constraint error)
and adds no Tag; consequently Tag names are pairwise distinct in every
reachable store state. -/
theorem tags_new_name_uniqueness (s : DB) (f : TagForm) :
    ((∃ t ∈ s.tags, t.name = f.name) →
      tags_new s f = .serverError ∧ runStore s (tags_new s f) = s) ∧
    (Reachable s → (s.tags.map (fun t => t.name)).Nodup) := by
  constructor
  · rintro ⟨t, ht, hname⟩
    have hdup : s.tags.any (fun t => t.name == f.name) = true :=
      List.any_eq_true.mpr ⟨t, ht, by simp [hname]⟩
    constructor
    · simp [tags_new, hdup]
    · simp [tags_new, hdup, runStore]
  · intro hr
    exact (reachable_tagsOk s hr).2

/-- A concrete reachable store with one tag named "x". -/
def dbC5 : DB := ⟨[], [], [⟨1, "x"⟩], []⟩

theorem tags_new_name_uniqueness_witness :
    (tags_new dbC5 ⟨"x", []⟩ = .serverError ∧
      runStore dbC5 (tags_new dbC5 ⟨"x", []⟩) = dbC5) ∧
    (dbC5.tags.map (fun t => t.name)).Nodup :=
  ⟨(tags_new_name_uniqueness dbC5 ⟨"x", []⟩).1 ⟨⟨1, "x"⟩, by simp [dbC5], rfl⟩,
   (tags_new_name_uniqueness dbC5 ⟨"x", []⟩).2
     (Relation.ReflTransGen.tail Relation.ReflTransGen.refl
       (Step.tags_new initialDB ⟨"x", []⟩ dbC5 (by rfl)))⟩

theorem users_new_ok_empty (s : DB) (f : UserForm) (h : f.image_url = "") :
    users_new s f = .ok { s with users := s.users ++
      [⟨nextUserId s, f.first_name, f.last_name, DEFAULT_IMAGE_URL⟩] } := by
  simp [users_new, h]

/-- Claim C6: creating a User that supplies the required first and last
name but leaves the image_url field empty stores the documented default
image URL constant `DEFAULT_IMAGE_URL` on the created User. -/
theorem users_new_default_image (s : DB) (f : UserForm)
    (h : f.image_url = "") :
    ∃ s', users_new s f = .ok s' ∧
      s'.users = s.users ++
        [⟨nextUserId s, f.first_name, f.last_name, DEFAULT_IMAGE_URL⟩] :=
  ⟨_, users_new_ok_empty s f h, rfl⟩

theorem users_new_default_image_witness :
    ∃ s', users_new dbW ⟨"X", "Y", ""⟩ = .ok s' ∧
      s'.users = dbW.users ++ [⟨nextUserId dbW, "X", "Y", DEFAULT_IMAGE_URL⟩] :=
  users_new_default_image dbW ⟨"X", "Y", ""⟩ rfl

/-- The store committed by a successful `users_update`, spelled out. -/
def usersUpdated (s : DB) (uid : Nat) (f : UserForm) : DB :=
  { s with users := s.users.map (fun u =>
      if u.id = uid then
        { u with first_name := f.first_name, last_name := f.last_name,
                 image_url := f.image_url }
      else u) }

theorem users_update_ok (s : DB) (uid : Nat) (f : UserForm) (u : User)
    (h : findUser s uid = some u) :
    users_update s uid f = .ok (usersUpdated s uid f) := by
  simp [users_update, usersUpdated, h]

theorem findUser_usersUpdated (s : DB) (uid : Nat) (f : UserForm) (u : User)
    (h : findUser s uid = some u) :
    findUser (usersUpdated s uid f) uid =
      some ⟨u.id, f.first_name, f.last_name, f.image_url⟩ := by
  have h0 : s.users.find? (fun v => v.id == uid) = some u := h
  have hid := @List.find?_some User (fun v : User => v.id == uid) u s.users h0
  have hid' : u.id = uid := by simpa using hid
  unfold findUser usersUpdated
  simp only [List.find?_map]
  have hcomp : ((fun v : User => v.id == uid) ∘ (fun v : User =>
      if v.id = uid then
        { v with first_name := f.first_name, last_name := f.last_name,
                 image_url := f.image_url }
      else v)) = fun v : User => v.id == uid := by
    funext v
    by_cases hv : v.id = uid <;> simp [hv]
  rw [hcomp]
  rw [show s.users.find? (fun v => v.id == uid) = some u from h]
  simp [hid']

/-- Membership in a list after a keyed in-place update: rows whose key
differs from the updated key are exactly the rows that were there. -/
theorem mem_map_ite_update {α : Type} (l : List α) (key : α → Nat) (uid : Nat)
    (g : α → α) (hkey : ∀ x, key (g x) = key x) (v : α) (hv : key v ≠ uid) :
    v ∈ l.map (fun x => if key x = uid then g x else x) ↔ v ∈ l := by
  constructor
  · intro hmem
    rcases List.mem_map.mp hmem with ⟨w, hw, hwe⟩
    by_cases hk : key w = uid
    · rw [if_pos hk] at hwe
      exact absurd (by rw [← hwe, hkey w, hk]) hv
    · rw [if_neg hk] at hwe
      rw [← hwe]
      exact hw
  · intro hmem
    exact List.mem_map.mpr ⟨v, hmem, if_neg hv⟩

/-- The store committed by a successful `tags_edit`, spelled out. -/
def tagsEdited (s : DB) (tid : Nat) (f : TagForm) : DB :=
  { s with tags := s.tags.map (fun t => if t.id = tid then { t with name := f.name } else t),
           posts_tags := s.posts_tags.filter (fun pt => pt.tag_id != tid)
             ++ (s.posts.filter (fun p => f.posts.contains p.id)).map (fun p => ⟨p.id, tid⟩) }

theorem tags_edit_ok (s : DB) (tid : Nat) (f : TagForm) (t : Tag)
    (h : findTag s tid = some t)
    (hnc : s.tags.any (fun t => t.id != tid && t.name == f.name) = false) :
    tags_edit s tid f = .ok (tagsEdited s tid f) := by
  simp [tags_edit, tagsEdited, h, hnc]

theorem findTag_tagsEdited (s : DB) (tid : Nat) (f : TagForm) (t : Tag)
    (h : findTag s tid = some t) :
    findTag (tagsEdited s tid f) tid = some ⟨t.id, f.name⟩ := by
  have h0 : s.tags.find? (fun x => x.id == tid) = some t := h
  have hid := @List.find?_some Tag (fun x : Tag => x.id == tid) t s.tags h0
  have hid' : t.id = tid := by simpa using hid
  unfold findTag tagsEdited
  simp only [List.find?_map]
  have hcomp : ((fun x : Tag => x.id == tid) ∘ (fun x : Tag =>
      if x.id = tid then { x with name := f.name } else x)) =
      fun x : Tag => x.id == tid := by
    funext x
    by_cases hx : x.id = tid <;> simp [hx]
  rw [hcomp]
  rw [show s.tags.find? (fun x => x.id == tid) = some t from h]
  simp [hid']

/-- Claim C7: every edit operation (`users_update`, `posts_update`,
`tags_edit`) is a full field replacement, not a partial patch: after a
successful edit every editable field of the target equals the submitted
form value, and no other entity of the store is modified. -/
theorem edits_full_field_replacement (s : DB) :
    (∀ uid u f, findUser s uid = some u →
      ∃ s', users_update s uid f = .ok s' ∧
        findUser s' uid = some ⟨u.id, f.first_name, f.last_name, f.image_url⟩ ∧
        (∀ v : User, v.id ≠ uid → (v ∈ s'.users ↔ v ∈ s.users)) ∧
        s'.posts = s.posts ∧ s'.tags = s.tags ∧ s'.posts_tags = s.posts_tags) ∧
    (∀ pid p f, findPost s pid = some p →
      ∃ s', posts_update s pid f = .ok s' ∧
        findPost s' pid = some ⟨p.id, f.title, f.content, p.created_at, p.user_id⟩ ∧
        (∀ q : Post, q.id ≠ pid → (q ∈ s'.posts ↔ q ∈ s.posts)) ∧
        s'.users = s.users ∧ s'.tags = s.tags ∧
        (∀ pt : PostTag, pt.post_id ≠ pid → (pt ∈ s'.posts_tags ↔ pt ∈ s.posts_tags))) ∧
    (∀ tid t f, findTag s tid = some t →
      s.tags.any (fun x => x.id != tid && x.name == f.name) = false →
      ∃ s', tags_edit s tid f = .ok s' ∧
        findTag s' tid = some ⟨t.id, f.name⟩ ∧
        (∀ x : Tag, x.id ≠ tid → (x ∈ s'.tags ↔ x ∈ s.tags)) ∧
        s'.users = s.users ∧ s'.posts = s.posts ∧
        (∀ pt : PostTag, pt.tag_id ≠ tid → (pt ∈ s'.posts_tags ↔ pt ∈ s.posts_tags))) := by
  refine ⟨?_, ?_, ?_⟩
  · intro uid u f h
    refine ⟨usersUpdated s uid f, users_update_ok s uid f u h,
      findUser_usersUpdated s uid f u h, ?_, rfl, rfl, rfl⟩
    intro v hv
    show v ∈ (s.users.map (fun x => if x.id = uid then
        (⟨x.id, f.first_name, f.last_name, f.image_url⟩ : User) else x)) ↔ v ∈ s.users
    exact mem_map_ite_update s.users (fun x => x.id) uid
      (fun x => ⟨x.id, f.first_name, f.last_name, f.image_url⟩) (fun x => rfl) v hv
  · intro pid p f h
    refine ⟨postsUpdated s pid f, posts_update_ok s pid f p h, ?_, ?_, rfl, rfl, ?_⟩
    · exact findPost_postsUpdated s pid f p h
    · intro q hq
      show q ∈ (s.posts.map (fun x => if x.id = pid then
          (⟨x.id, f.title, f.content, x.created_at, x.user_id⟩ : Post) else x)) ↔ q ∈ s.posts
      exact mem_map_ite_update s.posts (fun x => x.id) pid
        (fun x => ⟨x.id, f.title, f.content, x.created_at, x.user_id⟩) (fun x => rfl) q hq
    · intro pt hpt
      simp only [postsUpdated, List.mem_append, List.mem_filter, List.mem_map]
      constructor
      · rintro (h1 | h1)
        · exact h1.1
        · rcases h1 with ⟨x, hx, rfl⟩
          exact absurd rfl hpt
      · intro h1
        exact Or.inl ⟨h1, by simp [bne, hpt]⟩
  · intro tid t f h hnc
    refine ⟨tagsEdited s tid f, tags_edit_ok s tid f t h hnc, ?_, ?_, rfl, rfl, ?_⟩
    · exact findTag_tagsEdited s tid f t h
    · intro x hx
      show x ∈ (s.tags.map (fun y => if y.id = tid then
          (⟨y.id, f.name⟩ : Tag) else y)) ↔ x ∈ s.tags
      exact mem_map_ite_update s.tags (fun y => y.id) tid
        (fun y => ⟨y.id, f.name⟩) (fun y => rfl) x hx
    · intro pt hpt
      simp only [tagsEdited, List.mem_append, List.mem_filter, List.mem_map]
      constructor
      · rintro (h1 | h1)
        · exact h1.1
        · rcases h1 with ⟨x, hx, rfl⟩
          exact absurd rfl hpt
      · intro h1
        exact Or.inl ⟨h1, by simp [bne, hpt]⟩

theorem edits_full_field_replacement_witness :
    (∃ s', users_update dbW 1 ⟨"N", "M", "i2"⟩ = .ok s' ∧
      findUser s' 1 = some ⟨1, "N", "M", "i2"⟩ ∧
      (∀ v : User, v.id ≠ 1 → (v ∈ s'.users ↔ v ∈ dbW.users)) ∧
      s'.posts = dbW.posts ∧ s'.tags = dbW.tags ∧ s'.posts_tags = dbW.posts_tags) ∧
    (∃ s', posts_update dbW 1 ⟨"T", "C", [2]⟩ = .ok s' ∧
      findPost s' 1 = some ⟨1, "T", "C", 10, 1⟩ ∧
      (∀ q : Post, q.id ≠ 1 → (q ∈ s'.posts ↔ q ∈ dbW.posts)) ∧
      s'.users = dbW.users ∧ s'.tags = dbW.tags ∧
      (∀ pt : PostTag, pt.post_id ≠ 1 → (pt ∈ s'.posts_tags ↔ pt ∈ dbW.posts_tags))) ∧
    (∃ s', tags_edit dbW 1 ⟨"zap", []⟩ = .ok s' ∧
      findTag s' 1 = some ⟨1, "zap"⟩ ∧
      (∀ x : Tag, x.id ≠ 1 → (x ∈ s'.tags ↔ x ∈ dbW.tags)) ∧
      s'.users = dbW.users ∧ s'.posts = dbW.posts ∧
      (∀ pt : PostTag, pt.tag_id ≠ 1 → (pt ∈ s'.posts_tags ↔ pt ∈ dbW.posts_tags))) :=
  ⟨(edits_full_field_replacement dbW).1 1 ⟨1, "Jane", "Doe", "img"⟩ ⟨"N", "M", "i2"⟩ rfl,
   (edits_full_field_replacement dbW).2.1 1 ⟨1, "t", "c", 10, 1⟩ ⟨"T", "C", [2]⟩ rfl,
   (edits_full_field_replacement dbW).2.2 1 ⟨1, "fun"⟩ ⟨"zap", []⟩ rfl (by decide)⟩

/-- Claim C8: user creation and user edit treat an empty image URL
asymmetrically: `users_new` turns an empty image_url form value into the
default image URL, but `users_update` stores the empty string itself, so
editing a user with a blank image field does not restore the default. -/
theorem image_url_blank_asymmetry (s : DB) (f : UserForm) (uid : Nat)
    (u : User) (himg : f.image_url = "") (h : findUser s uid = some u) :
    (∃ s', users_new s f = .ok s' ∧ s'.users = s.users ++
      [⟨nextUserId s, f.first_name, f.last_name, DEFAULT_IMAGE_URL⟩]) ∧
    (∃ s', users_update s uid f = .ok s' ∧
      ∃ v, findUser s' uid = some v ∧ v.image_url = "" ∧
        v.image_url ≠ DEFAULT_IMAGE_URL) := by
  constructor
  · exact ⟨_, users_new_ok_empty s f himg, rfl⟩
  · refine ⟨usersUpdated s uid f, users_update_ok s uid f u h,
      ⟨u.id, f.first_name, f.last_name, f.image_url⟩,
      findUser_usersUpdated s uid f u h, himg, ?_⟩
    rw [himg]
    intro hco
    have : DEFAULT_IMAGE_URL ≠ "" := by decide
    exact this hco.symm

theorem image_url_blank_asymmetry_witness :
    (∃ s', users_new dbW ⟨"X", "Y", ""⟩ = .ok s' ∧ s'.users = dbW.users ++
      [⟨nextUserId dbW, "X", "Y", DEFAULT_IMAGE_URL⟩]) ∧
    (∃ s', users_update dbW 1 ⟨"X", "Y", ""⟩ = .ok s' ∧
      ∃ v, findUser s' 1 = some v ∧ v.image_url = "" ∧
        v.image_url ≠ DEFAULT_IMAGE_URL) :=
  image_url_blank_asymmetry dbW ⟨"X", "Y", ""⟩ 1 ⟨1, "Jane", "Doe", "img"⟩ rfl rfl

/-- Claim C9: deleting a Tag removes only that Tag and its join rows:
every Post (and User) remains with all fields unchanged, other Tags
remain, and join rows of other tags remain. -/
theorem tags_destroy_removes_only_tag (s : DB) (tid : Nat) (t : Tag)
    (h : findTag s tid = some t) :
    ∃ s', tags_destroy s tid = .ok s' ∧
      s'.users = s.users ∧ s'.posts = s.posts ∧
      (∀ x : Tag, x ∈ s'.tags ↔ x ∈ s.tags ∧ x.id ≠ tid) ∧
      (∀ pt : PostTag, pt ∈ s'.posts_tags ↔ pt ∈ s.posts_tags ∧ pt.tag_id ≠ tid) := by
  have hok : tags_destroy s tid = .ok
      { s with tags := s.tags.filter (fun x => x.id != tid),
               posts_tags := s.posts_tags.filter (fun pt => pt.tag_id != tid) } := by
    simp [tags_destroy, h]
  refine ⟨_, hok, rfl, rfl, ?_, ?_⟩
  · intro x
    simp [List.mem_filter]
  · intro pt
    simp [List.mem_filter]

theorem tags_destroy_removes_only_tag_witness :
    ∃ s', tags_destroy dbW 2 = .ok s' ∧
      s'.users = dbW.users ∧ s'.posts = dbW.posts ∧
      (∀ x : Tag, x ∈ s'.tags ↔ x ∈ dbW.tags ∧ x.id ≠ 2) ∧
      (∀ pt : PostTag, pt ∈ s'.posts_tags ↔ pt ∈ dbW.posts_tags ∧ pt.tag_id ≠ 2) :=
  tags_destroy_removes_only_tag dbW 2 ⟨2, "cool"⟩ rfl

/-- Claim C10: the homepage returns exactly `min 5 |posts|` posts (so at
most 5, and all of them when the store holds 5 or fewer), ordered by
creation timestamp descending, and they are the most recently created
posts of the store: any stored post left out is no newer than any shown
one. -/
theorem root_five_most_recent (s : DB) :
    (root s).length = min 5 s.posts.length ∧
    (root s).length ≤ 5 ∧
    (root s).Pairwise (fun a b => b.created_at ≤ a.created_at) ∧
    (∀ p ∈ root s, p ∈ s.posts) ∧
    (∀ p ∈ s.posts, p ∉ root s → ∀ q ∈ root s, p.created_at ≤ q.created_at) := by
  have hperm := List.mergeSort_perm s.posts (fun a b => b.created_at ≤ a.created_at)
  have htrans : ∀ a b c : Post,
      (decide (b.created_at ≤ a.created_at)) = true →
      (decide (c.created_at ≤ b.created_at)) = true →
      (decide (c.created_at ≤ a.created_at)) = true := by
    intro a b c h1 h2
    simp only [decide_eq_true_eq] at h1 h2 ⊢
    omega
  have htotal : ∀ a b : Post,
      (decide (b.created_at ≤ a.created_at) ||
        decide (a.created_at ≤ b.created_at)) = true := by
    intro a b
    rcases Nat.le_total a.created_at b.created_at with h1 | h1 <;> simp [h1]
  have hsorted := @List.sorted_mergeSort Post
    (fun a b => decide (b.created_at ≤ a.created_at)) htrans htotal s.posts
  refine ⟨?_, ?_, ?_, ?_, ?_⟩
  · rw [root, List.length_take, hperm.length_eq]
  · rw [root, List.length_take]
    exact Nat.min_le_left _ _
  · have := List.Pairwise.sublist (List.take_sublist 5 _) hsorted
    exact this.imp (fun h => by simpa using h)
  · intro p hp
    exact hperm.subset (List.take_subset 5 _ hp)
  · intro p hp hnp q hq
    have hpL : p ∈ (s.posts.mergeSort (fun a b => b.created_at ≤ a.created_at)) :=
      hperm.symm.subset hp
    rw [← List.take_append_drop 5
      (s.posts.mergeSort (fun a b => b.created_at ≤ a.created_at))] at hpL
    rcases List.mem_append.mp hpL with h1 | h1
    · exact absurd h1 hnp
    · have hsplit := hsorted
      rw [← List.take_append_drop 5
        (s.posts.mergeSort (fun a b => b.created_at ≤ a.created_at))] at hsplit
      have := (List.pairwise_append.mp hsplit).2.2 q hq p h1
      simpa using this

theorem root_five_most_recent_witness :
    (root dbW).length = min 5 dbW.posts.length ∧
    (root dbW).length ≤ 5 ∧
    (root dbW).Pairwise (fun a b => b.created_at ≤ a.created_at) ∧
    (∀ p ∈ root dbW, p ∈ dbW.posts) ∧
    (∀ p ∈ dbW.posts, p ∉ root dbW → ∀ q ∈ root dbW, p.created_at ≤ q.created_at) :=
  root_five_most_recent dbW

end Blogly
